import Mathlib

/-!
Verification of the menu-retrieval and caching layer of the cafeteria
front-end (`src/services/menuService.ts`), against its specification.

Modelling conventions for the shallow embedding:
* A calendar date (`Date` restricted to day granularity, as used by
  `addDays` / `subDays` / `isWeekend` from date-fns) is an `Int` counting
  days since the Unix epoch (1970-01-01, a Thursday).  `addDays d 1` is
  `d + 1`, `subDays d 1` is `d - 1`, and `isWeekend` tests the day of
  week derived from the epoch offset.
* Timestamps (`Date.now()`) are `Int` milliseconds.
* The two cache tiers (`memoryCache : Map`, `localStorage`) are
  association lists from string keys to values; `localStorage` stores a
  parse result: either a well-formed `CachedData` or an unparseable
  (corrupted) value, which models a string `JSON.parse` rejects.
* `localStorage.setItem` quota exhaustion is an external event; it is
  passed to `setToDayCache` as two booleans, one per write attempt.
* The network (`fetch` + `response.json()`) outcome is passed to
  `getDayMenu` as an explicit `FetchOutcome`; `formatKST`'s duty of
  rendering a date as a `yyyyMMdd` string is an explicit function
  parameter `fmt`, since it wraps the external date-fns library.
* String comparison (for the `sort()` of cache keys) and the
  `startsWith` test are implemented structurally over the character
  lists so that all definitions evaluate inside the kernel; on the
  ASCII keys this store uses they agree with the JavaScript semantics.
-/

namespace MenuService

/-! ## Date utilities (date-fns `isWeekend`, `addDays`, `subDays`) -/

/-- Day of week of an epoch-day number: 0 = Sunday, …, 6 = Saturday
(day 0 = 1970-01-01 is a Thursday = 4). -/
def dayOfWeek (d : Int) : Int := (d + 4) % 7

/-- date-fns `isWeekend`: Saturday or Sunday. -/
def isWeekend (d : Int) : Bool := dayOfWeek d == 0 || dayOfWeek d == 6

/-- Number of consecutive weekend days at `d` going backward
(Sunday: 2, Saturday: 1, weekday: 0).  Termination measure only. -/
def bSteps (d : Int) : Nat :=
  if dayOfWeek d = 0 then 2 else if dayOfWeek d = 6 then 1 else 0

/-- Number of consecutive weekend days at `d` going forward
(Saturday: 2, Sunday: 1, weekday: 0).  Termination measure only. -/
def fSteps (d : Int) : Nat :=
  if dayOfWeek d = 6 then 2 else if dayOfWeek d = 0 then 1 else 0

inductive Direction
  | forward
  | backward
deriving DecidableEq, Repr

/-- `getNearestWeekday(date, direction)`: step one calendar day at a time
in `direction` while the current day is a weekend. -/
def getNearestWeekday (date : Int) (direction : Direction) : Int :=
  if isWeekend date then
    getNearestWeekday
      (match direction with
       | .forward => date + 1
       | .backward => date - 1) direction
  else date
termination_by (match direction with | .forward => fSteps date | .backward => bSteps date)
decreasing_by
  cases direction <;>
    (simp only [isWeekend, dayOfWeek, fSteps, bSteps, beq_iff_eq, Bool.or_eq_true] at *
     split_ifs <;> omega)

/-- Loop body of `getWeekdaysBefore`: collect `count` weekdays walking
backward from `current`, in ascending order (the source `unshift`s each
hit onto the front of the array). -/
def getWeekdaysBeforeAux (current : Int) (count : Nat) : List Int :=
  if count = 0 then []
  else if isWeekend current then getWeekdaysBeforeAux (current - 1) count
  else getWeekdaysBeforeAux (current - 1) (count - 1) ++ [current]
termination_by 3 * count + bSteps current
decreasing_by
  · simp only [isWeekend, dayOfWeek, bSteps, beq_iff_eq, Bool.or_eq_true] at *
    split_ifs <;> omega
  · simp only [isWeekend, dayOfWeek, bSteps, beq_iff_eq, Bool.or_eq_true] at *
    split_ifs <;> omega

/-- `getWeekdaysBefore(date, count)`: the `count` weekdays strictly
before `date`, ascending (the loop starts at `subDays(date, 1)`). -/
def getWeekdaysBefore (date : Int) (count : Nat) : List Int :=
  getWeekdaysBeforeAux (date - 1) count

/-- Loop body of `getWeekdaysAfter`: collect `count` weekdays walking
forward from `current`, in ascending order (the source `push`es each hit
onto the end of the array). -/
def getWeekdaysAfterAux (current : Int) (count : Nat) : List Int :=
  if count = 0 then []
  else if isWeekend current then getWeekdaysAfterAux (current + 1) count
  else current :: getWeekdaysAfterAux (current + 1) (count - 1)
termination_by 3 * count + fSteps current
decreasing_by
  · simp only [isWeekend, dayOfWeek, fSteps, beq_iff_eq, Bool.or_eq_true] at *
    split_ifs <;> omega
  · simp only [isWeekend, dayOfWeek, fSteps, beq_iff_eq, Bool.or_eq_true] at *
    split_ifs <;> omega

/-- `getWeekdaysAfter(date, count)`: the `count` weekdays strictly after
`date`, ascending (the loop starts at `addDays(date, 1)`). -/
def getWeekdaysAfter (date : Int) (count : Nat) : List Int :=
  getWeekdaysAfterAux (date + 1) count

/-! Fuel-indexed versions of the three scanning loops, used to express
termination (claim C10): `none` means the loop was still running when
the fuel ran out, so a `some` result exhibits a bound on the number of
iterations the source's `while` loop performs. -/

/-- `getNearestWeekday` with an explicit bound on loop iterations. -/
def getNearestWeekdayFuel : Nat → Int → Direction → Option Int
  | fuel, date, direction =>
    if isWeekend date then
      match fuel with
      | 0 => none
      | f + 1 =>
        getNearestWeekdayFuel f
          (match direction with
           | .forward => date + 1
           | .backward => date - 1) direction
    else some date

/-- `getWeekdaysBefore`'s loop with an explicit iteration bound. -/
def getWeekdaysBeforeFuel : Nat → Int → Nat → Option (List Int)
  | _, _, 0 => some []
  | 0, _, _ + 1 => none
  | f + 1, current, n + 1 =>
    if isWeekend current then getWeekdaysBeforeFuel f (current - 1) (n + 1)
    else (getWeekdaysBeforeFuel f (current - 1) n).map (· ++ [current])

/-- `getWeekdaysAfter`'s loop with an explicit iteration bound. -/
def getWeekdaysAfterFuel : Nat → Int → Nat → Option (List Int)
  | _, _, 0 => some []
  | 0, _, _ + 1 => none
  | f + 1, current, n + 1 =>
    if isWeekend current then getWeekdaysAfterFuel f (current + 1) (n + 1)
    else (getWeekdaysAfterFuel f (current + 1) n).map (current :: ·)

/-! ## Data model -/

/-- `type Language = 'ko' | 'en' | 'zh' | 'sv'`. -/
inductive Language
  | ko
  | en
  | zh
  | sv
deriving DecidableEq, Repr

/-- The language code as it appears inside cache keys. -/
def Language.code : Language → String
  | .ko => "ko"
  | .en => "en"
  | .zh => "zh"
  | .sv => "sv"

/-- Modelled from the spec: the `MenuItem` record of `src/types/menu`
(file not present under `src/`): name plus optional description, corner
name and sub-menus.  Produced only by the remote API. -/
structure MenuItem where
  name : String
  description : Option String := none
  corner_name : Option String := none
  sub_menus : Option (List String) := none
deriving DecidableEq, Repr

/-- Modelled from the spec: the `DayMenu` record of `src/types/menu`
(file not present under `src/`): date string, language, lunch and dinner
item lists, optional salad and dessert. -/
structure DayMenu where
  date : String
  language : Language
  lunch : List MenuItem
  dinner : List MenuItem
  salad : Option MenuItem := none
  dessert : Option MenuItem := none
deriving DecidableEq, Repr

/-- `isMenuEmpty`: no lunch, no dinner, no salad, no dessert. -/
def isMenuEmpty (menu : DayMenu) : Bool :=
  menu.lunch.length == 0 && menu.dinner.length == 0 &&
    menu.salad.isNone && menu.dessert.isNone

/-- `interface CachedData { data; timestamp; isEmpty }` — also the shape
of the values of the in-memory `Map`. -/
structure CachedData where
  data : DayMenu
  timestamp : Int
  isEmpty : Bool
deriving DecidableEq, Repr

/-- A raw `localStorage` value as seen through `JSON.parse`: either a
well-formed serialized `CachedData`, or an unparseable (corrupted)
string on which `JSON.parse` throws. -/
inductive StoredVal
  | good (c : CachedData)
  | corrupt
deriving DecidableEq, Repr

/-! ## Association-list maps (the two cache tiers) -/

/-- First-match lookup (`Map.get` / `localStorage.getItem`). -/
def lookup {α : Type} : List (String × α) → String → Option α
  | [], _ => none
  | (k, v) :: rest, key => if k = key then some v else lookup rest key

/-- Remove every binding of `key` (`Map.delete` / `localStorage.removeItem`). -/
def eraseKey {α : Type} (l : List (String × α)) (key : String) : List (String × α) :=
  l.filter (fun kv => kv.1 ≠ key)

/-- Overwriting insert (`Map.set` / `localStorage.setItem`). -/
def insert {α : Type} (l : List (String × α)) (key : String) (v : α) :
    List (String × α) :=
  (key, v) :: eraseKey l key

/-- Structural prefix test over character data; agrees with JavaScript
`String.startsWith` on the ASCII keys this store uses. -/
def listCharIsPrefix : List Char → List Char → Bool
  | [], _ => true
  | _ :: _, [] => false
  | c :: cs, d :: ds => c == d && listCharIsPrefix cs ds

/-- `key.startsWith(p)`. -/
def strStartsWith (key p : String) : Bool := listCharIsPrefix p.data key.data

/-- Structural lexicographic comparison over character data; agrees with
the default JavaScript `Array.sort()` string order on ASCII keys. -/
def listCharLe : List Char → List Char → Bool
  | [], _ => true
  | _ :: _, [] => false
  | c :: cs, d :: ds => if c < d then true else if d < c then false else listCharLe cs ds

/-- `a <= b` in JavaScript string order (ASCII fragment). -/
def strLe (a b : String) : Bool := listCharLe a.data b.data

/-- Insertion step of `sortKeys`. -/
def insertSorted (x : String) : List String → List String
  | [] => [x]
  | y :: ys => if strLe x y then x :: y :: ys else y :: insertSorted x ys

/-- `keys.sort()`: ascending string sort. -/
def sortKeys : List String → List String
  | [] => []
  | x :: xs => insertSorted x (sortKeys xs)

/-! ## Cache store (`menuService.ts` lines 31–139) -/

/-- `CACHE_DURATION`: 6 hours in milliseconds. -/
def CACHE_DURATION : Int := 6 * 60 * 60 * 1000

/-- `EMPTY_CACHE_DURATION`: 1 hour in milliseconds. -/
def EMPTY_CACHE_DURATION : Int := 1 * 60 * 60 * 1000

/-- The two cache tiers: the module-level in-memory `Map` and
`localStorage` (client side, so `typeof window !== 'undefined'`). -/
structure CacheState where
  memoryCache : List (String × CachedData)
  localStorage : List (String × StoredVal)
deriving DecidableEq, Repr

/-- The empty pair of tiers (fresh session, empty `localStorage`). -/
def emptyCache : CacheState := ⟨[], []⟩

/-- The key namespace shared by all of this store's entries. -/
def menuDayTag : String := "menu-day-"

/-- `getDayCacheKey(date, language)` = `menu-day-${date}-${language}`. -/
def getDayCacheKey (date : String) (language : Language) : String :=
  menuDayTag ++ date ++ "-" ++ language.code

/-- `getFromDayCache(date, language)`: memory tier first (evicting an
expired entry and falling through), then `localStorage` (promoting an
unexpired entry into memory, evicting an expired one, and treating an
unparseable value as a miss).  Returns the hit (or `null`) together with
the updated tiers. -/
def getFromDayCache (now : Int) (s : CacheState) (date : String) (language : Language) :
    Option DayMenu × CacheState :=
  let key := getDayCacheKey date language
  let checkStorage (s : CacheState) : Option DayMenu × CacheState :=
    match lookup s.localStorage key with
    | none => (none, s)
    | some .corrupt => (none, s)
    | some (.good c) =>
      let duration := if c.isEmpty then EMPTY_CACHE_DURATION else CACHE_DURATION
      if now - c.timestamp > duration then
        (none, { s with localStorage := eraseKey s.localStorage key })
      else
        (some c.data, { s with memoryCache := insert s.memoryCache key c })
  match lookup s.memoryCache key with
  | some memoryCached =>
    let duration := if memoryCached.isEmpty then EMPTY_CACHE_DURATION else CACHE_DURATION
    if now - memoryCached.timestamp ≤ duration then
      (some memoryCached.data, s)
    else
      checkStorage { s with memoryCache := eraseKey s.memoryCache key }
  | none => checkStorage s

/-- The keys `clearOldMenuCache` removes: the first ⌈n/2⌉, in ascending
sort order, of the `localStorage` keys starting with `menu-day-`. -/
def evictedKeys (ls : List (String × StoredVal)) : List String :=
  let keysToRemove := (ls.map Prod.fst).filter (fun k => strStartsWith k menuDayTag)
  (sortKeys keysToRemove).take ((keysToRemove.length + 1) / 2)

/-- `clearOldMenuCache()`: collect the `menu-day-` keys, sort them, and
remove the first half (`Math.ceil(n/2)` many). -/
def clearOldMenuCache (ls : List (String × StoredVal)) : List (String × StoredVal) :=
  ls.filter (fun kv => !(evictedKeys ls).contains kv.1)

/-- `setToDayCache(date, language, data)`: always write the memory tier;
then try `localStorage.setItem`, and on quota failure run
`clearOldMenuCache` and retry once, swallowing a second failure.
`quotaFail1` / `quotaFail2` are the outcomes of the two attempts. -/
def setToDayCache (now : Int) (quotaFail1 quotaFail2 : Bool) (s : CacheState)
    (date : String) (language : Language) (data : DayMenu) : CacheState :=
  let key := getDayCacheKey date language
  let isEmpty := isMenuEmpty data
  let cacheData : CachedData := ⟨data, now, isEmpty⟩
  let s1 : CacheState := { s with memoryCache := insert s.memoryCache key cacheData }
  if quotaFail1 then
    let s2 : CacheState := { s1 with localStorage := clearOldMenuCache s1.localStorage }
    if quotaFail2 then s2
    else { s2 with localStorage := insert s2.localStorage key (.good cacheData) }
  else { s1 with localStorage := insert s1.localStorage key (.good cacheData) }

/-! ## Menu fetch client and range assembler (`menuService.ts` 141–264) -/

/-- Outcome of `fetch` + `response.json()` for one request: a parsed
body, a non-2xx status (`!response.ok`), a rejected `fetch`, or a body
`response.json()` cannot parse.  The last three all land in the same
`catch` block of `getDayMenu`. -/
inductive FetchOutcome
  | ok (menu : DayMenu)
  | httpError
  | networkError
  | malformed
deriving DecidableEq, Repr

/-- `getDayMenu(date, language)`: cache first; on a miss consult the
network outcome; any failure is caught and replaced by an empty
placeholder menu for that date, which is cached like a real result. -/
def getDayMenu (fmt : Int → String) (now : Int) (quotaFail1 quotaFail2 : Bool)
    (fetched : FetchOutcome) (s : CacheState) (date : Int) (language : Language) :
    DayMenu × CacheState :=
  let formattedDate := fmt date
  match getFromDayCache now s formattedDate language with
  | (some cached, s1) => (cached, s1)
  | (none, s1) =>
    match fetched with
    | .ok dayMenu =>
      (dayMenu, setToDayCache now quotaFail1 quotaFail2 s1 formattedDate language dayMenu)
    | .httpError | .networkError | .malformed =>
      let emptyMenu : DayMenu :=
        { date := formattedDate, language := language,
          lunch := [], dinner := [], dessert := none, salad := none }
      (emptyMenu, setToDayCache now quotaFail1 quotaFail2 s1 formattedDate language emptyMenu)

/-- Fetch every date of a list through `getDayMenu`, preserving the
order of the date list in the results (`Promise.all` keeps positional
order; the shared cache tiers are threaded through). -/
def fetchAllDays (fmt : Int → String) (now : Int) (quotaFail1 quotaFail2 : Bool)
    (oracle : Int → FetchOutcome) (s : CacheState) (dates : List Int)
    (language : Language) : List DayMenu × CacheState :=
  match dates with
  | [] => ([], s)
  | d :: rest =>
    let r1 := getDayMenu fmt now quotaFail1 quotaFail2 (oracle d) s d language
    let r2 := fetchAllDays fmt now quotaFail1 quotaFail2 oracle r1.2 rest language
    (r1.1 :: r2.1, r2.2)

/-- The date list `getCenteredMenu` assembles: before-dates, sanitized
center, after-dates. -/
def centeredDates (centerDate : Int) (daysBefore daysAfter : Nat) : List Int :=
  let adjustedCenter := getNearestWeekday centerDate .backward
  getWeekdaysBefore adjustedCenter daysBefore ++
    adjustedCenter :: getWeekdaysAfter adjustedCenter daysAfter

/-- WeekMenu: the ordered day list a range request produces. -/
structure WeekMenu where
  days : List DayMenu
deriving DecidableEq, Repr

/-- `getCenteredMenu(centerDate, daysBefore, daysAfter, language)`:
sanitize the center backward, assemble the window, fetch every day. -/
def getCenteredMenu (fmt : Int → String) (now : Int) (quotaFail1 quotaFail2 : Bool)
    (oracle : Int → FetchOutcome) (s : CacheState) (centerDate : Int)
    (daysBefore daysAfter : Nat) (language : Language) : WeekMenu × CacheState :=
  let allDates := centeredDates centerDate daysBefore daysAfter
  let r := fetchAllDays fmt now quotaFail1 quotaFail2 oracle s allDates language
  (⟨r.1⟩, r.2)

/-- `getWeeklyMenu(date, language)`: the legacy entry point, delegating
to `getCenteredMenu(date, 2, 2, language)`. -/
def getWeeklyMenu (fmt : Int → String) (now : Int) (quotaFail1 quotaFail2 : Bool)
    (oracle : Int → FetchOutcome) (s : CacheState) (date : Int)
    (language : Language) : WeekMenu × CacheState :=
  getCenteredMenu fmt now quotaFail1 quotaFail2 oracle s date 2 2 language

/-! ## Association-list lemmas -/

theorem lookup_insert_self {α : Type} (l : List (String × α)) (key : String) (v : α) :
    lookup (insert l key v) key = some v := by
  simp [insert, lookup]

theorem lookup_filter {α : Type} (p : String → Bool) (l : List (String × α)) (key : String) :
    lookup (l.filter (fun kv => p kv.1)) key = if p key then lookup l key else none := by
  induction l with
  | nil => cases hp : p key <;> simp [lookup, hp]
  | cons kv rest ih =>
    obtain ⟨k', v⟩ := kv
    by_cases hk : k' = key
    · subst hk
      cases hp : p k' <;> simp [List.filter_cons, hp, lookup, ih]
    · cases hp : p k' <;> simp [List.filter_cons, hp, lookup, hk, ih]

theorem lookup_eraseKey {α : Type} (l : List (String × α)) (key k : String) :
    lookup (eraseKey l key) k = if k = key then none else lookup l k := by
  have h := lookup_filter (fun s => decide (s ≠ key)) l k
  simp only [eraseKey]
  rw [h]
  by_cases hk : k = key <;> simp [hk]

theorem lookup_insert_ne {α : Type} (l : List (String × α)) {k key : String} (v : α)
    (h : k ≠ key) : lookup (insert l key v) k = lookup l k := by
  simp only [insert, lookup]
  rw [if_neg (fun hq => h hq.symm), lookup_eraseKey, if_neg h]

theorem lookup_filter_none {α : Type} (p : String × α → Bool) (l : List (String × α))
    (key : String) (h : lookup l key = none) : lookup (l.filter p) key = none := by
  induction l with
  | nil => simp [lookup]
  | cons kv rest ih =>
    obtain ⟨k', v⟩ := kv
    simp only [lookup] at h
    by_cases hk : k' = key
    · simp [hk] at h
    · have hr : lookup rest key = none := by simpa [hk] using h
      cases hp : p (k', v) <;> simp [List.filter_cons, hp, lookup, hk, ih hr]

theorem lookup_clearOldMenuCache (ls : List (String × StoredVal)) (k : String) :
    lookup (clearOldMenuCache ls) k =
      if (evictedKeys ls).contains k then none else lookup ls k := by
  have h := lookup_filter (fun s => !(evictedKeys ls).contains s) ls k
  simp only [clearOldMenuCache]
  rw [h]
  cases hc : (evictedKeys ls).contains k <;> simp [hc]

/-! ## Cache-store structure lemmas -/

theorem setToDayCache_memoryCache (now : Int) (f1 f2 : Bool) (s : CacheState)
    (date : String) (language : Language) (data : DayMenu) :
    (setToDayCache now f1 f2 s date language data).memoryCache =
      insert s.memoryCache (getDayCacheKey date language)
        ⟨data, now, isMenuEmpty data⟩ := by
  cases f1 <;> cases f2 <;> rfl

theorem setToDayCache_localStorage_noQuota (now : Int) (f2 : Bool) (s : CacheState)
    (date : String) (language : Language) (data : DayMenu) :
    (setToDayCache now false f2 s date language data).localStorage =
      insert s.localStorage (getDayCacheKey date language)
        (.good ⟨data, now, isMenuEmpty data⟩) := rfl

theorem setToDayCache_localStorage_quota (now : Int) (f2 : Bool) (s : CacheState)
    (date : String) (language : Language) (data : DayMenu) :
    (setToDayCache now true f2 s date language data).localStorage =
      if f2 then clearOldMenuCache s.localStorage
      else insert (clearOldMenuCache s.localStorage) (getDayCacheKey date language)
        (.good ⟨data, now, isMenuEmpty data⟩) := by
  cases f2 <;> rfl

theorem setToDayCache_preserves_none (now : Int) (f1 f2 : Bool) (s : CacheState)
    (date : String) (language : Language) (data : DayMenu) {k : String}
    (hk : k ≠ getDayCacheKey date language)
    (hm : lookup s.memoryCache k = none) (hl : lookup s.localStorage k = none) :
    lookup (setToDayCache now f1 f2 s date language data).memoryCache k = none ∧
    lookup (setToDayCache now f1 f2 s date language data).localStorage k = none := by
  refine ⟨?_, ?_⟩
  · rw [setToDayCache_memoryCache, lookup_insert_ne _ _ hk, hm]
  · cases f1
    · rw [setToDayCache_localStorage_noQuota, lookup_insert_ne _ _ hk, hl]
    · rw [setToDayCache_localStorage_quota]
      have hcl : lookup (clearOldMenuCache s.localStorage) k = none :=
        lookup_filter_none _ _ _ hl
      cases f2
      · simp only [if_neg Bool.false_ne_true, Bool.false_eq_true, if_false]
        rw [lookup_insert_ne _ _ hk, hcl]
      · simpa using hcl

theorem getFromDayCache_of_none (now : Int) (s : CacheState) (date : String)
    (language : Language)
    (hm : lookup s.memoryCache (getDayCacheKey date language) = none)
    (hl : lookup s.localStorage (getDayCacheKey date language) = none) :
    getFromDayCache now s date language = (none, s) := by
  simp [getFromDayCache, hm, hl]

/-! ## Date-utility lemmas -/

theorem bSteps_le_two (d : Int) : bSteps d ≤ 2 := by
  simp only [bSteps]
  split_ifs <;> omega

theorem fSteps_le_two (d : Int) : fSteps d ≤ 2 := by
  simp only [fSteps]
  split_ifs <;> omega

theorem bSteps_of_weekend {d : Int} (h : isWeekend d = true) :
    bSteps d = bSteps (d - 1) + 1 := by
  simp only [isWeekend, dayOfWeek, beq_iff_eq, Bool.or_eq_true] at h
  simp only [bSteps, dayOfWeek]
  split_ifs <;> omega

theorem fSteps_of_weekend {d : Int} (h : isWeekend d = true) :
    fSteps d = fSteps (d + 1) + 1 := by
  simp only [isWeekend, dayOfWeek, beq_iff_eq, Bool.or_eq_true] at h
  simp only [fSteps, dayOfWeek]
  split_ifs <;> omega

theorem getWeekdaysBeforeAux_spec (current : Int) (count : Nat) :
    (getWeekdaysBeforeAux current count).length = count ∧
    (∀ x ∈ getWeekdaysBeforeAux current count, x ≤ current ∧ isWeekend x = false) ∧
    List.Pairwise (· < ·) (getWeekdaysBeforeAux current count) := by
  induction current, count using getWeekdaysBeforeAux.induct with
  | case1 current =>
    rw [getWeekdaysBeforeAux.eq_def]
    simp
  | case2 current count hc hw ih =>
    rw [getWeekdaysBeforeAux.eq_def, if_neg hc, if_pos hw]
    obtain ⟨hlen, hmem, hpw⟩ := ih
    exact ⟨hlen, fun x hx => ⟨le_trans (hmem x hx).1 (by omega), (hmem x hx).2⟩, hpw⟩
  | case3 current count hc hw ih =>
    rw [getWeekdaysBeforeAux.eq_def, if_neg hc, if_neg hw]
    obtain ⟨hlen, hmem, hpw⟩ := ih
    refine ⟨?_, ?_, ?_⟩
    · simp only [List.length_append, List.length_cons, List.length_nil, hlen]
      omega
    · intro x hx
      rcases List.mem_append.1 hx with hx | hx
      · exact ⟨by have := (hmem x hx).1; omega, (hmem x hx).2⟩
      · have hxc : x = current := by simpa using hx
        subst hxc
        exact ⟨le_refl _, by simpa using hw⟩
    · rw [List.pairwise_append]
      refine ⟨hpw, by simp, ?_⟩
      intro a ha b hb
      have h1 := (hmem a ha).1
      have hb' : b = current := by simpa using hb
      omega

theorem getWeekdaysAfterAux_spec (current : Int) (count : Nat) :
    (getWeekdaysAfterAux current count).length = count ∧
    (∀ x ∈ getWeekdaysAfterAux current count, current ≤ x ∧ isWeekend x = false) ∧
    List.Pairwise (· < ·) (getWeekdaysAfterAux current count) := by
  induction current, count using getWeekdaysAfterAux.induct with
  | case1 current =>
    rw [getWeekdaysAfterAux.eq_def]
    simp
  | case2 current count hc hw ih =>
    rw [getWeekdaysAfterAux.eq_def, if_neg hc, if_pos hw]
    obtain ⟨hlen, hmem, hpw⟩ := ih
    exact ⟨hlen, fun x hx => ⟨by have := (hmem x hx).1; omega, (hmem x hx).2⟩, hpw⟩
  | case3 current count hc hw ih =>
    rw [getWeekdaysAfterAux.eq_def, if_neg hc, if_neg hw]
    obtain ⟨hlen, hmem, hpw⟩ := ih
    refine ⟨?_, ?_, ?_⟩
    · simp only [List.length_cons, hlen]
      omega
    · intro x hx
      rcases List.mem_cons.1 hx with hx | hx
      · subst hx
        exact ⟨le_refl _, by simpa using hw⟩
      · exact ⟨by have := (hmem x hx).1; omega, (hmem x hx).2⟩
    · rw [List.pairwise_cons]
      refine ⟨?_, hpw⟩
      intro b hb
      have := (hmem b hb).1
      omega

theorem getNearestWeekday_not_weekend (date : Int) (direction : Direction) :
    isWeekend (getNearestWeekday date direction) = false := by
  induction date, direction using getNearestWeekday.induct with
  | case1 date direction hw ih =>
    rw [getNearestWeekday.eq_def, if_pos hw]
    exact ih
  | case2 date direction hw =>
    rw [getNearestWeekday.eq_def, if_neg hw]
    simpa using hw

theorem getNearestWeekday_backward_le (date : Int) :
    getNearestWeekday date .backward ≤ date := by
  have general : ∀ (d : Int) (dir : Direction), dir = .backward →
      getNearestWeekday d dir ≤ d := by
    intro d dir
    induction d, dir using getNearestWeekday.induct with
    | case1 d dir hw ih =>
      intro hdir
      subst hdir
      rw [getNearestWeekday.eq_def, if_pos hw]
      have := ih rfl
      simp only at this ⊢
      omega
    | case2 d dir hw =>
      intro _
      rw [getNearestWeekday.eq_def, if_neg hw]
  exact general date .backward rfl

theorem getNearestWeekdayFuel_correct :
    ∀ (date : Int) (direction : Direction) (fuel : Nat),
      (match direction with | .forward => fSteps date | .backward => bSteps date) ≤ fuel →
      getNearestWeekdayFuel fuel date direction = some (getNearestWeekday date direction) := by
  intro date direction
  induction date, direction using getNearestWeekday.induct with
  | case1 date direction hw ih =>
    intro fuel hf
    cases direction with
    | forward =>
      have hstep := fSteps_of_weekend hw
      have hf' : fSteps date ≤ fuel := hf
      obtain ⟨f, rfl⟩ : ∃ f, fuel = f + 1 := ⟨fuel - 1, by omega⟩
      have hunf : getNearestWeekdayFuel (f + 1) date Direction.forward =
          getNearestWeekdayFuel f (date + 1) Direction.forward := by
        rw [getNearestWeekdayFuel.eq_def]
        simp [hw]
      rw [hunf, getNearestWeekday.eq_def, if_pos hw]
      exact ih f (show fSteps (date + 1) ≤ f by omega)
    | backward =>
      have hstep := bSteps_of_weekend hw
      have hf' : bSteps date ≤ fuel := hf
      obtain ⟨f, rfl⟩ : ∃ f, fuel = f + 1 := ⟨fuel - 1, by omega⟩
      have hunf : getNearestWeekdayFuel (f + 1) date Direction.backward =
          getNearestWeekdayFuel f (date - 1) Direction.backward := by
        rw [getNearestWeekdayFuel.eq_def]
        simp [hw]
      rw [hunf, getNearestWeekday.eq_def, if_pos hw]
      exact ih f (show bSteps (date - 1) ≤ f by omega)
  | case2 date direction hw =>
    intro fuel _
    have hunf : getNearestWeekdayFuel fuel date direction = some date := by
      rcases fuel with _ | f <;> (rw [getNearestWeekdayFuel.eq_def]; simp [hw])
    rw [hunf, getNearestWeekday.eq_def, if_neg hw]

theorem getWeekdaysBeforeFuel_correct :
    ∀ (current : Int) (count fuel : Nat), 3 * count + bSteps current ≤ fuel →
      getWeekdaysBeforeFuel fuel current count = some (getWeekdaysBeforeAux current count) := by
  intro current count
  induction current, count using getWeekdaysBeforeAux.induct with
  | case1 current =>
    intro fuel _
    rw [getWeekdaysBeforeAux.eq_def]
    simp [getWeekdaysBeforeFuel]
  | case2 current count hc hw ih =>
    intro fuel hf
    have h1 : bSteps current = bSteps (current - 1) + 1 := bSteps_of_weekend hw
    obtain ⟨n, rfl⟩ : ∃ n, count = n + 1 := ⟨count - 1, by omega⟩
    obtain ⟨f, rfl⟩ : ∃ f, fuel = f + 1 := ⟨fuel - 1, by omega⟩
    rw [getWeekdaysBeforeAux.eq_def, if_neg hc, if_pos hw]
    show getWeekdaysBeforeFuel (f + 1) current (n + 1) = _
    rw [getWeekdaysBeforeFuel, if_pos hw]
    exact ih f (by omega)
  | case3 current count hc hw ih =>
    intro fuel hf
    obtain ⟨n, rfl⟩ : ∃ n, count = n + 1 := ⟨count - 1, by omega⟩
    obtain ⟨f, rfl⟩ : ∃ f, fuel = f + 1 := ⟨fuel - 1, by omega⟩
    rw [getWeekdaysBeforeAux.eq_def, if_neg hc, if_neg hw]
    show getWeekdaysBeforeFuel (f + 1) current (n + 1) = _
    rw [getWeekdaysBeforeFuel, if_neg hw]
    have hb := bSteps_le_two (current - 1)
    simp only [Nat.add_sub_cancel] at ih ⊢
    rw [ih f (by omega)]
    rfl

theorem getWeekdaysAfterFuel_correct :
    ∀ (current : Int) (count fuel : Nat), 3 * count + fSteps current ≤ fuel →
      getWeekdaysAfterFuel fuel current count = some (getWeekdaysAfterAux current count) := by
  intro current count
  induction current, count using getWeekdaysAfterAux.induct with
  | case1 current =>
    intro fuel _
    rw [getWeekdaysAfterAux.eq_def]
    simp [getWeekdaysAfterFuel]
  | case2 current count hc hw ih =>
    intro fuel hf
    have h1 : fSteps current = fSteps (current + 1) + 1 := fSteps_of_weekend hw
    obtain ⟨n, rfl⟩ : ∃ n, count = n + 1 := ⟨count - 1, by omega⟩
    obtain ⟨f, rfl⟩ : ∃ f, fuel = f + 1 := ⟨fuel - 1, by omega⟩
    rw [getWeekdaysAfterAux.eq_def, if_neg hc, if_pos hw]
    show getWeekdaysAfterFuel (f + 1) current (n + 1) = _
    rw [getWeekdaysAfterFuel, if_pos hw]
    exact ih f (by omega)
  | case3 current count hc hw ih =>
    intro fuel hf
    obtain ⟨n, rfl⟩ : ∃ n, count = n + 1 := ⟨count - 1, by omega⟩
    obtain ⟨f, rfl⟩ : ∃ f, fuel = f + 1 := ⟨fuel - 1, by omega⟩
    rw [getWeekdaysAfterAux.eq_def, if_neg hc, if_neg hw]
    show getWeekdaysAfterFuel (f + 1) current (n + 1) = _
    rw [getWeekdaysAfterFuel, if_neg hw]
    have hb := fSteps_le_two (current + 1)
    simp only [Nat.add_sub_cancel] at ih ⊢
    rw [ih f (by omega)]
    rfl

/-! ## Range-assembler lemmas -/

theorem centeredDates_length (c : Int) (b a : Nat) :
    (centeredDates c b a).length = b + 1 + a := by
  simp only [centeredDates, getWeekdaysBefore, getWeekdaysAfter, List.length_append,
    List.length_cons, (getWeekdaysBeforeAux_spec _ _).1, (getWeekdaysAfterAux_spec _ _).1]
  omega

theorem centeredDates_sorted (c : Int) (b a : Nat) :
    List.Pairwise (· < ·) (centeredDates c b a) := by
  have hb := getWeekdaysBeforeAux_spec (getNearestWeekday c .backward - 1) b
  have ha := getWeekdaysAfterAux_spec (getNearestWeekday c .backward + 1) a
  simp only [centeredDates, getWeekdaysBefore, getWeekdaysAfter]
  rw [List.pairwise_append]
  refine ⟨hb.2.2, ?_, ?_⟩
  · rw [List.pairwise_cons]
    exact ⟨fun x hx => by have := (ha.2.1 x hx).1; omega, ha.2.2⟩
  · intro x hx y hy
    have hx1 := (hb.2.1 x hx).1
    rcases List.mem_cons.1 hy with rfl | hy
    · omega
    · have := (ha.2.1 y hy).1
      omega

theorem centeredDates_nodup (c : Int) (b a : Nat) : (centeredDates c b a).Nodup :=
  List.Pairwise.imp (fun h => ne_of_lt h) (centeredDates_sorted c b a)

theorem centeredDates_no_weekend (c : Int) (b a : Nat) :
    ∀ d ∈ centeredDates c b a, isWeekend d = false := by
  intro d hd
  have hb := getWeekdaysBeforeAux_spec (getNearestWeekday c .backward - 1) b
  have ha := getWeekdaysAfterAux_spec (getNearestWeekday c .backward + 1) a
  simp only [centeredDates, getWeekdaysBefore, getWeekdaysAfter] at hd
  rcases List.mem_append.1 hd with hd | hd
  · exact (hb.2.1 d hd).2
  · rcases List.mem_cons.1 hd with rfl | hd
    · exact getNearestWeekday_not_weekend c .backward
    · exact (ha.2.1 d hd).2

theorem fetchAllDays_length (fmt : Int → String) (now : Int) (f1 f2 : Bool)
    (oracle : Int → FetchOutcome) (language : Language) :
    ∀ (dates : List Int) (s : CacheState),
      (fetchAllDays fmt now f1 f2 oracle s dates language).1.length = dates.length := by
  intro dates
  induction dates with
  | nil => intro s; rfl
  | cons d rest ih =>
    intro s
    simp [fetchAllDays, ih]

theorem fetchAllDays_map_date (fmt : Int → String) (now : Int) (f1 f2 : Bool)
    (oracle : Int → FetchOutcome) (language : Language)
    (hok : ∀ d m, oracle d = FetchOutcome.ok m → m.date = fmt d) :
    ∀ (dates : List Int) (s : CacheState),
      (dates.map (fun d => getDayCacheKey (fmt d) language)).Nodup →
      (∀ d ∈ dates, lookup s.memoryCache (getDayCacheKey (fmt d) language) = none ∧
        lookup s.localStorage (getDayCacheKey (fmt d) language) = none) →
      (fetchAllDays fmt now f1 f2 oracle s dates language).1.map DayMenu.date =
        dates.map fmt := by
  intro dates
  induction dates with
  | nil => intro s _ _; rfl
  | cons d rest ih =>
    intro s hnd hfresh
    obtain ⟨hm, hl⟩ := hfresh d (by simp)
    have hgc := getFromDayCache_of_none now s (fmt d) language hm hl
    simp only [List.map_cons, List.nodup_cons] at hnd
    obtain ⟨hdnotin, hndrest⟩ := hnd
    have hkey : ∀ d' ∈ rest,
        getDayCacheKey (fmt d') language ≠ getDayCacheKey (fmt d) language := by
      intro d' hd' heq
      exact hdnotin (heq ▸ List.mem_map_of_mem (fun x => getDayCacheKey (fmt x) language) hd')
    have hrest : ∀ (menu : DayMenu), ∀ d' ∈ rest,
        lookup (setToDayCache now f1 f2 s (fmt d) language menu).memoryCache
          (getDayCacheKey (fmt d') language) = none ∧
        lookup (setToDayCache now f1 f2 s (fmt d) language menu).localStorage
          (getDayCacheKey (fmt d') language) = none := by
      intro menu d' hd'
      exact setToDayCache_preserves_none now f1 f2 s (fmt d) language menu
        (hkey d' hd') (hfresh d' (List.mem_cons_of_mem d hd')).1
        (hfresh d' (List.mem_cons_of_mem d hd')).2
    simp only [fetchAllDays, getDayMenu, hgc]
    cases hfd : oracle d with
    | ok m =>
      have hdate := hok d m hfd
      simp only [List.map_cons, hdate]
      rw [ih (setToDayCache now f1 f2 s (fmt d) language m) hndrest (hrest m)]
    | httpError =>
      simp only [List.map_cons]
      rw [ih _ hndrest (hrest _)]
    | networkError =>
      simp only [List.map_cons]
      rw [ih _ hndrest (hrest _)]
    | malformed =>
      simp only [List.map_cons]
      rw [ih _ hndrest (hrest _)]

/-! ## Concrete calendar dates (denotation of `YYYY-MM-DD` literals) -/

/-- Gregorian leap-year test. -/
def isLeapYear (y : Nat) : Bool := (y % 4 == 0 && y % 100 != 0) || y % 400 == 0

/-- Days in a civil year. -/
def daysInYear (y : Nat) : Nat := if isLeapYear y then 366 else 365

/-- Days from 1970-01-01 to the start of year `1970 + n`. -/
def daysFromEpochToYear : Nat → Nat
  | 0 => 0
  | n + 1 => daysFromEpochToYear n + daysInYear (1970 + n)

/-- Cumulative day counts before each month (non-leap year). -/
def monthOffsets : List Nat := [0, 31, 59, 90, 120, 151, 181, 212, 243, 273, 304, 334]

/-- The epoch-day number of the civil date `y-m-d` (for `y ≥ 1970`). -/
def mkDate (y m d : Nat) : Int :=
  ((daysFromEpochToYear (y - 1970) + monthOffsets.getD (m - 1) 0 +
    (if 3 ≤ m && isLeapYear y then 1 else 0) + (d - 1) : Nat) : Int)

/-! ## Single-step evaluation lemmas for the weekday scanners -/

theorem getNearestWeekday_backward_step {d : Int} (h : isWeekend d = true) :
    getNearestWeekday d .backward = getNearestWeekday (d - 1) .backward := by
  rw [getNearestWeekday.eq_def, if_pos h]

theorem getNearestWeekday_backward_id {d : Int} (h : isWeekend d = false) :
    getNearestWeekday d .backward = d := by
  rw [getNearestWeekday.eq_def, if_neg (by simp [h])]

theorem getWeekdaysBeforeAux_zero (current : Int) :
    getWeekdaysBeforeAux current 0 = [] := by
  rw [getWeekdaysBeforeAux.eq_def]
  simp

theorem getWeekdaysBeforeAux_weekend {current : Int} (h : isWeekend current = true)
    {count : Nat} (hc : count ≠ 0) :
    getWeekdaysBeforeAux current count = getWeekdaysBeforeAux (current - 1) count := by
  rw [getWeekdaysBeforeAux.eq_def, if_neg hc, if_pos h]

theorem getWeekdaysBeforeAux_weekday {current : Int} (h : isWeekend current = false)
    {count : Nat} (hc : count ≠ 0) :
    getWeekdaysBeforeAux current count =
      getWeekdaysBeforeAux (current - 1) (count - 1) ++ [current] := by
  rw [getWeekdaysBeforeAux.eq_def, if_neg hc, if_neg (by simp [h])]

theorem getWeekdaysAfterAux_zero (current : Int) :
    getWeekdaysAfterAux current 0 = [] := by
  rw [getWeekdaysAfterAux.eq_def]
  simp

theorem getWeekdaysAfterAux_weekend {current : Int} (h : isWeekend current = true)
    {count : Nat} (hc : count ≠ 0) :
    getWeekdaysAfterAux current count = getWeekdaysAfterAux (current + 1) count := by
  rw [getWeekdaysAfterAux.eq_def, if_neg hc, if_pos h]

theorem getWeekdaysAfterAux_weekday {current : Int} (h : isWeekend current = false)
    {count : Nat} (hc : count ≠ 0) :
    getWeekdaysAfterAux current count =
      current :: getWeekdaysAfterAux (current + 1) (count - 1) := by
  rw [getWeekdaysAfterAux.eq_def, if_neg hc, if_neg (by simp [h])]

/-! ## Concrete example values used by the closed witness statements -/

/-- Example date string. -/
def wsDate : String := "20240110"

/-- A second example date string (sorts after `wsDate`). -/
def wsDateB : String := "20240111"

/-- Cache key of `wsDate`/English. -/
def wsKey : String := getDayCacheKey wsDate Language.en

/-- Cache key of `wsDateB`/English. -/
def wsKeyB : String := getDayCacheKey wsDateB Language.en

/-- Example menu item. -/
def wsItem : MenuItem := { name := "soup" }

/-- A non-empty example day menu. -/
def wsMenu : DayMenu :=
  { date := wsDate, language := Language.en, lunch := [wsItem], dinner := [] }

/-- The empty placeholder menu for `wsDate`/English. -/
def wsEmptyMenu : DayMenu :=
  { date := wsDate, language := Language.en, lunch := [], dinner := [],
    dessert := none, salad := none }

/-- Tiers holding a non-empty entry stamped at time 0 in the memory tier. -/
def wsStateFull : CacheState :=
  { memoryCache := [(wsKey, ⟨wsMenu, 0, false⟩)], localStorage := [] }

/-- Tiers holding an empty-menu entry stamped at time 0 in the memory tier. -/
def wsStateEmptyEntry : CacheState :=
  { memoryCache := [(wsKey, ⟨wsEmptyMenu, 0, true⟩)], localStorage := [] }

/-- Tiers whose persistent half holds two entries of this store. -/
def wsStateTwo : CacheState :=
  { memoryCache := [],
    localStorage := [(wsKey, .good ⟨wsMenu, 0, false⟩), (wsKeyB, .good ⟨wsMenu, 0, false⟩)] }

/-- Tiers whose persistent half holds one corrupted entry. -/
def wsStateCorrupt : CacheState :=
  { memoryCache := [], localStorage := [(wsKey, .corrupt)] }

/-! ## Concrete evaluations of the weekday scanners (via the fuel forms,
which are structurally recursive and hence kernel-computable) -/

theorem getNearestWeekday_eval_19735 : getNearestWeekday 19735 .backward = 19734 := by
  have h := getNearestWeekdayFuel_correct 19735 .backward 2 (by decide)
  have h2 : getNearestWeekdayFuel 2 19735 .backward = some 19734 := by decide
  rw [h2] at h
  exact (Option.some_inj.mp h).symm

theorem getWeekdaysBefore_eval_19734 : getWeekdaysBefore 19734 1 = [19733] := by
  have h := getWeekdaysBeforeFuel_correct 19733 1 6 (by decide)
  have h2 : getWeekdaysBeforeFuel 6 19733 1 = some [19733] := by decide
  rw [h2] at h
  exact (Option.some_inj.mp h).symm

theorem getWeekdaysAfter_eval_19734 : getWeekdaysAfter 19734 1 = [19737] := by
  have h := getWeekdaysAfterFuel_correct 19735 1 6 (by decide)
  have h2 : getWeekdaysAfterFuel 6 19735 1 = some [19737] := by decide
  rw [h2] at h
  exact (Option.some_inj.mp h).symm

theorem centeredDates_eval_19735 :
    centeredDates 19735 1 1 = [19733, 19734, 19737] := by
  simp only [centeredDates, getNearestWeekday_eval_19735, getWeekdaysBefore_eval_19734,
    getWeekdaysAfter_eval_19734]
  rfl

/-! ## The claims -/

/-- C1: `getFromDayCache` applies the asymmetric expiry policy decided by
the entry's `isEmpty` flag: a non-empty entry is a hit iff its age is at
most `CACHE_DURATION` (6 h), an empty entry iff its age is at most
`EMPTY_CACHE_DURATION` (1 h), in both tiers; consequently an empty-menu
entry older than 1 h is a miss while a non-empty entry of the same age is
still a hit. -/
theorem getFromDayCache_expiry_policy
    (now ts : Int) (isEmp : Bool) (data : DayMenu) (s : CacheState)
    (date : String) (language : Language) :
    (lookup s.memoryCache (getDayCacheKey date language) = some ⟨data, ts, isEmp⟩ →
      lookup s.localStorage (getDayCacheKey date language) = none →
      ((getFromDayCache now s date language).1 = some data ↔
        now - ts ≤ if isEmp then EMPTY_CACHE_DURATION else CACHE_DURATION)) ∧
    (lookup s.memoryCache (getDayCacheKey date language) = none →
      lookup s.localStorage (getDayCacheKey date language) =
        some (StoredVal.good ⟨data, ts, isEmp⟩) →
      ((getFromDayCache now s date language).1 = some data ↔
        now - ts ≤ if isEmp then EMPTY_CACHE_DURATION else CACHE_DURATION)) ∧
    (lookup s.memoryCache (getDayCacheKey date language) = some ⟨data, ts, true⟩ →
      lookup s.localStorage (getDayCacheKey date language) = none →
      EMPTY_CACHE_DURATION < now - ts →
      (getFromDayCache now s date language).1 = none) ∧
    (lookup s.memoryCache (getDayCacheKey date language) = some ⟨data, ts, false⟩ →
      lookup s.localStorage (getDayCacheKey date language) = none →
      now - ts ≤ CACHE_DURATION →
      (getFromDayCache now s date language).1 = some data) := by
  have mem_entry : ∀ (e : Bool) (hm : lookup s.memoryCache (getDayCacheKey date language) =
        some ⟨data, ts, e⟩)
      (hl : lookup s.localStorage (getDayCacheKey date language) = none),
      (getFromDayCache now s date language).1 =
        if now - ts ≤ (if e then EMPTY_CACHE_DURATION else CACHE_DURATION) then some data
        else none := by
    intro e hm hl
    by_cases hc : now - ts ≤ (if e then EMPTY_CACHE_DURATION else CACHE_DURATION)
    · simp [getFromDayCache, hm, hc]
    · simp [getFromDayCache, hm, hc, hl]
  have iff_helper : ∀ (C : Prop) (inst : Decidable C),
      ((if C then (some data : Option DayMenu) else none) = some data ↔ C) := by
    intro C inst
    split_ifs with hc
    · simp [hc]
    · simp [hc]
  refine ⟨?_, ?_, ?_, ?_⟩
  · intro hm hl
    rw [mem_entry isEmp hm hl]
    exact iff_helper _ _
  · intro hm hl
    by_cases hc : now - ts > (if isEmp then EMPTY_CACHE_DURATION else CACHE_DURATION)
    · have hres : (getFromDayCache now s date language).1 = none := by
        simp [getFromDayCache, hm, hl, hc]
      rw [hres]
      constructor
      · intro h; cases h
      · intro h; omega
    · have hres : (getFromDayCache now s date language).1 = some data := by
        simp [getFromDayCache, hm, hl, hc]
      rw [hres]
      constructor
      · intro _; omega
      · intro _; rfl
  · intro hm hl hage
    have hcond : ¬(now - ts ≤ if (true : Bool) then EMPTY_CACHE_DURATION else CACHE_DURATION) := by
      show ¬(now - ts ≤ EMPTY_CACHE_DURATION)
      omega
    rw [mem_entry true hm hl, if_neg hcond]
  · intro hm hl hage
    have hcond : now - ts ≤ if (false : Bool) then EMPTY_CACHE_DURATION else CACHE_DURATION := by
      show now - ts ≤ CACHE_DURATION
      omega
    rw [mem_entry false hm hl, if_pos hcond]

/-- Witness for C1: at age 3 600 001 ms (just over one hour), an
empty-menu entry misses while a non-empty entry hits. -/
theorem getFromDayCache_expiry_policy_witness :
    (getFromDayCache 3600001 wsStateEmptyEntry wsDate Language.en).1 = none ∧
    (getFromDayCache 3600001 wsStateFull wsDate Language.en).1 = some wsMenu := by
  constructor
  · exact (getFromDayCache_expiry_policy 3600001 0 true wsEmptyMenu wsStateEmptyEntry
      wsDate Language.en).2.2.1 (by decide) (by decide) (by decide)
  · exact (getFromDayCache_expiry_policy 3600001 0 false wsMenu wsStateFull
      wsDate Language.en).2.2.2 (by decide) (by decide) (by decide)

/-- C2: on a cache miss, any fetch failure (non-2xx status, rejected
fetch, unparseable body) makes `getDayMenu` build the empty placeholder
menu for that date and language, write it to the cache store (always to
the memory tier; to the persistent tier when no quota failure occurs),
and return it. -/
theorem getDayMenu_failure_placeholder
    (fmt : Int → String) (now : Int) (f1 f2 : Bool) (fetched : FetchOutcome)
    (s : CacheState) (date : Int) (language : Language)
    (hmiss : (getFromDayCache now s (fmt date) language).1 = none)
    (hfail : ∀ m, fetched ≠ FetchOutcome.ok m) :
    (getDayMenu fmt now f1 f2 fetched s date language).1 =
      { date := fmt date, language := language, lunch := [], dinner := [],
        dessert := none, salad := none } ∧
    lookup (getDayMenu fmt now f1 f2 fetched s date language).2.memoryCache
        (getDayCacheKey (fmt date) language) =
      some ⟨{ date := fmt date, language := language, lunch := [], dinner := [],
              dessert := none, salad := none }, now, true⟩ ∧
    (f1 = false →
      lookup (getDayMenu fmt now f1 f2 fetched s date language).2.localStorage
          (getDayCacheKey (fmt date) language) =
        some (StoredVal.good ⟨{ date := fmt date, language := language, lunch := [],
                                dinner := [], dessert := none, salad := none },
                              now, true⟩)) := by
  rcases hgc : getFromDayCache now s (fmt date) language with ⟨o, s1⟩
  rw [hgc] at hmiss
  simp only at hmiss
  subst hmiss
  have key_result : ∀ (r : DayMenu × CacheState),
      r = getDayMenu fmt now f1 f2 fetched s date language →
      r.2 = setToDayCache now f1 f2 s1 (fmt date) language
        { date := fmt date, language := language, lunch := [], dinner := [],
          dessert := none, salad := none } ∧
      r.1 = { date := fmt date, language := language, lunch := [], dinner := [],
              dessert := none, salad := none } := by
    intro r hr
    cases fetched with
    | ok m => exact absurd rfl (hfail m)
    | httpError => rw [hr]; simp [getDayMenu, hgc]
    | networkError => rw [hr]; simp [getDayMenu, hgc]
    | malformed => rw [hr]; simp [getDayMenu, hgc]
  obtain ⟨hst, hfst⟩ := key_result _ rfl
  refine ⟨hfst, ?_, ?_⟩
  · rw [hst, setToDayCache_memoryCache, lookup_insert_self]
    exact rfl
  · intro hf1
    subst hf1
    rw [hst, setToDayCache_localStorage_noQuota, lookup_insert_self]
    exact rfl

/-- Witness for C2: a network failure on an empty cache produces and
caches the placeholder. -/
theorem getDayMenu_failure_placeholder_witness :
    (getDayMenu (fun _ => wsDate) 5 false false FetchOutcome.networkError
      emptyCache 0 Language.en).1 = wsEmptyMenu ∧
    lookup (getDayMenu (fun _ => wsDate) 5 false false FetchOutcome.networkError
        emptyCache 0 Language.en).2.memoryCache wsKey = some ⟨wsEmptyMenu, 5, true⟩ := by
  have h := getDayMenu_failure_placeholder (fun _ => wsDate) 5 false false
    FetchOutcome.networkError emptyCache 0 Language.en (by decide)
    (fun m hm => by cases hm)
  exact ⟨h.1, h.2.1⟩

/-- C3: the window `getCenteredMenu` assembles has exactly
`daysBefore + 1 + daysAfter` days; its dates are strictly ascending,
duplicate-free and weekend-free; and (starting from empty tiers, with a
server echoing the requested date) the returned menus carry exactly
those dates in order. -/
theorem getCenteredMenu_window_spec
    (fmt : Int → String) (now : Int) (f1 f2 : Bool) (oracle : Int → FetchOutcome)
    (s : CacheState) (c : Int) (b a : Nat) (language : Language)
    (hok : ∀ d m, oracle d = FetchOutcome.ok m → m.date = fmt d)
    (hkeys : ((centeredDates c b a).map (fun d => getDayCacheKey (fmt d) language)).Nodup) :
    (getCenteredMenu fmt now f1 f2 oracle s c b a language).1.days.length = b + 1 + a ∧
    List.Pairwise (· < ·) (centeredDates c b a) ∧
    (centeredDates c b a).Nodup ∧
    (∀ d ∈ centeredDates c b a, isWeekend d = false) ∧
    (getCenteredMenu fmt now f1 f2 oracle emptyCache c b a language).1.days.map
        DayMenu.date = (centeredDates c b a).map fmt := by
  refine ⟨?_, centeredDates_sorted c b a, centeredDates_nodup c b a,
    centeredDates_no_weekend c b a, ?_⟩
  · simp only [getCenteredMenu]
    rw [fetchAllDays_length]
    exact centeredDates_length c b a
  · simp only [getCenteredMenu]
    exact fetchAllDays_map_date fmt now f1 f2 oracle language hok _ emptyCache hkeys
      (fun d _ => ⟨rfl, rfl⟩)

/-- Witness for C3: the Saturday-centered 1+1+1 window around
2024-01-13. -/
theorem getCenteredMenu_window_spec_witness :
    (getCenteredMenu (fun d => toString d) 0 false false
      (fun _ => FetchOutcome.networkError) emptyCache 19735 1 1
      Language.en).1.days.length = 1 + 1 + 1 ∧
    (getCenteredMenu (fun d => toString d) 0 false false
      (fun _ => FetchOutcome.networkError) emptyCache 19735 1 1
      Language.en).1.days.map DayMenu.date =
      (centeredDates 19735 1 1).map (fun d => toString d) := by
  have h := getCenteredMenu_window_spec (fun d => toString d) 0 false false
    (fun _ => FetchOutcome.networkError) emptyCache 19735 1 1 Language.en
    (fun d m hm => by cases hm)
    (by rw [centeredDates_eval_19735]; decide)
  exact ⟨h.1, h.2.2.2.2⟩

/-- C4: a `setToDayCache` immediately followed by `getFromDayCache` for
the same date and language, within the applicable expiry window (1 h for
an empty menu, 6 h otherwise), returns the stored menu unchanged,
whatever the persistent tier did. -/
theorem setToDayCache_getFromDayCache_roundtrip
    (now now2 : Int) (f1 f2 : Bool) (s : CacheState) (date : String)
    (language : Language) (data : DayMenu)
    (h : now2 - now ≤ if isMenuEmpty data then EMPTY_CACHE_DURATION else CACHE_DURATION) :
    (getFromDayCache now2 (setToDayCache now f1 f2 s date language data)
        date language).1 = some data := by
  have hm : lookup (setToDayCache now f1 f2 s date language data).memoryCache
      (getDayCacheKey date language) = some ⟨data, now, isMenuEmpty data⟩ := by
    rw [setToDayCache_memoryCache, lookup_insert_self]
  simp [getFromDayCache, hm, h]

/-- Witness for C4: a non-empty menu read back 100 ms after the write. -/
theorem setToDayCache_getFromDayCache_roundtrip_witness :
    (getFromDayCache 100 (setToDayCache 0 false false emptyCache wsDate
        Language.en wsMenu) wsDate Language.en).1 = some wsMenu :=
  setToDayCache_getFromDayCache_roundtrip 0 100 false false emptyCache wsDate
    Language.en wsMenu (by decide)

/-- C5: `getWeekdaysBefore d n` returns exactly `n` weekdays, each
strictly before `d`, in ascending order, and `getWeekdaysAfter d n`
symmetrically returns `n` weekdays strictly after `d`; `n = 0` yields
the empty sequence on both sides. -/
theorem getWeekdays_before_after_spec (d : Int) (n : Nat) :
    (getWeekdaysBefore d n).length = n ∧
    (∀ x ∈ getWeekdaysBefore d n, isWeekend x = false ∧ x < d) ∧
    List.Pairwise (· < ·) (getWeekdaysBefore d n) ∧
    getWeekdaysBefore d 0 = [] ∧
    (getWeekdaysAfter d n).length = n ∧
    (∀ x ∈ getWeekdaysAfter d n, isWeekend x = false ∧ d < x) ∧
    List.Pairwise (· < ·) (getWeekdaysAfter d n) ∧
    getWeekdaysAfter d 0 = [] := by
  have hb := getWeekdaysBeforeAux_spec (d - 1) n
  have ha := getWeekdaysAfterAux_spec (d + 1) n
  refine ⟨hb.1, ?_, hb.2.2, ?_, ha.1, ?_, ha.2.2, ?_⟩
  · intro x hx
    exact ⟨(hb.2.1 x hx).2, by have := (hb.2.1 x hx).1; omega⟩
  · simp [getWeekdaysBefore, getWeekdaysBeforeAux_zero]
  · intro x hx
    exact ⟨(ha.2.1 x hx).2, by have := (ha.2.1 x hx).1; omega⟩
  · simp [getWeekdaysAfter, getWeekdaysAfterAux_zero]

/-- C6: centering on Saturday 2024-01-13 with one day each side
sanitizes the center back to Friday 2024-01-12 and produces the window
2024-01-11, 2024-01-12, 2024-01-15 (the Monday after the weekend), and
the assembled week has three days. -/
theorem getCenteredMenu_saturday_scenario :
    getNearestWeekday (mkDate 2024 1 13) .backward = mkDate 2024 1 12 ∧
    centeredDates (mkDate 2024 1 13) 1 1 =
      [mkDate 2024 1 11, mkDate 2024 1 12, mkDate 2024 1 15] ∧
    (getCenteredMenu (fun d => toString d) 0 false false
      (fun _ => FetchOutcome.networkError) emptyCache (mkDate 2024 1 13) 1 1
      Language.en).1.days.length = 3 := by
  have e13 : mkDate 2024 1 13 = 19735 := by decide
  have e11 : mkDate 2024 1 11 = 19733 := by decide
  have e12 : mkDate 2024 1 12 = 19734 := by decide
  have e15 : mkDate 2024 1 15 = 19737 := by decide
  rw [e13, e11, e12, e15]
  refine ⟨getNearestWeekday_eval_19735, centeredDates_eval_19735, ?_⟩
  simp only [getCenteredMenu]
  rw [fetchAllDays_length, centeredDates_eval_19735]
  rfl

/-- C7: when the first persistent-tier write fails with quota
exhaustion, the store evicts the first ⌈n/2⌉ `menu-day-` keys in
ascending sort order, retries once (landing the entry when the retry
succeeds), and on a second failure completes with only the memory-tier
write — the function is total, so no error reaches the caller. -/
theorem setToDayCache_quota_eviction
    (now : Int) (f2 : Bool) (s : CacheState) (date : String) (language : Language)
    (data : DayMenu) (k : String) :
    lookup (setToDayCache now true f2 s date language data).memoryCache
        (getDayCacheKey date language) = some ⟨data, now, isMenuEmpty data⟩ ∧
    (f2 = false →
      lookup (setToDayCache now true f2 s date language data).localStorage k =
        if k = getDayCacheKey date language then
          some (StoredVal.good ⟨data, now, isMenuEmpty data⟩)
        else if (evictedKeys s.localStorage).contains k then none
        else lookup s.localStorage k) ∧
    (f2 = true →
      lookup (setToDayCache now true f2 s date language data).localStorage k =
        if (evictedKeys s.localStorage).contains k then none
        else lookup s.localStorage k) := by
  refine ⟨?_, ?_, ?_⟩
  · rw [setToDayCache_memoryCache, lookup_insert_self]
  · intro hf2
    subst hf2
    rw [setToDayCache_localStorage_quota]
    simp only [Bool.false_eq_true, if_false]
    by_cases hk : k = getDayCacheKey date language
    · subst hk
      rw [lookup_insert_self, if_pos rfl]
    · rw [lookup_insert_ne _ _ hk, lookup_clearOldMenuCache, if_neg hk]
  · intro hf2
    subst hf2
    rw [setToDayCache_localStorage_quota, if_pos rfl]
    exact lookup_clearOldMenuCache s.localStorage k

/-- Witness for C7: with two stored entries and a failing retry, the
smaller key is evicted and the larger key survives untouched. -/
theorem setToDayCache_quota_eviction_witness :
    lookup (setToDayCache 0 true true wsStateTwo wsDate Language.en
        wsMenu).localStorage wsKey = none ∧
    lookup (setToDayCache 0 true true wsStateTwo wsDate Language.en
        wsMenu).localStorage wsKeyB = some (StoredVal.good ⟨wsMenu, 0, false⟩) := by
  constructor
  · exact ((setToDayCache_quota_eviction 0 true wsStateTwo wsDate Language.en
      wsMenu wsKey).2.2 rfl).trans (by decide)
  · exact ((setToDayCache_quota_eviction 0 true wsStateTwo wsDate Language.en
      wsMenu wsKeyB).2.2 rfl).trans (by decide)

/-- C8 (amended): a corrupted persistent-tier value with an empty
memory-tier entry for that key is a cache miss, but `getFromDayCache`
leaves the tiers — including the corrupted entry — completely
unchanged rather than evicting it. -/
theorem getFromDayCache_corrupt_is_miss
    (now : Int) (s : CacheState) (date : String) (language : Language)
    (hm : lookup s.memoryCache (getDayCacheKey date language) = none)
    (hc : lookup s.localStorage (getDayCacheKey date language) =
      some StoredVal.corrupt) :
    getFromDayCache now s date language = (none, s) := by
  simp [getFromDayCache, hm, hc]

/-- Witness for C8 (amended): the concrete corrupted store. -/
theorem getFromDayCache_corrupt_is_miss_witness :
    getFromDayCache 7 wsStateCorrupt wsDate Language.en = (none, wsStateCorrupt) :=
  getFromDayCache_corrupt_is_miss 7 wsStateCorrupt wsDate Language.en
    (by decide) (by decide)

/-- C8 counterexample: after the miss on a corrupted entry, the entry is
still present in the persistent tier — the claimed eviction does not
happen. -/
theorem getFromDayCache_corrupt_not_evicted :
    (getFromDayCache 0 wsStateCorrupt wsDate Language.en).1 = none ∧
    lookup (getFromDayCache 0 wsStateCorrupt wsDate Language.en).2.localStorage
      wsKey = some StoredVal.corrupt := by
  decide

/-- C9: the legacy `getWeeklyMenu` is definitionally `getCenteredMenu`
with two days on each side. -/
theorem getWeeklyMenu_eq_getCenteredMenu (fmt : Int → String) (now : Int)
    (f1 f2 : Bool) (oracle : Int → FetchOutcome) (s : CacheState) (date : Int)
    (language : Language) :
    getWeeklyMenu fmt now f1 f2 oracle s date language =
      getCenteredMenu fmt now f1 f2 oracle s date 2 2 language := rfl

/-- C10: the three weekday-scanning loops are total: `getNearestWeekday`
finishes within two calendar-day steps, and the before/after collectors
finish within an explicit fuel bound for every count. -/
theorem weekday_scanning_loops_terminate :
    (∀ (d : Int) (dir : Direction),
      getNearestWeekdayFuel 2 d dir = some (getNearestWeekday d dir)) ∧
    (∀ (d : Int) (n : Nat), ∃ fuel,
      getWeekdaysBeforeFuel fuel (d - 1) n = some (getWeekdaysBefore d n)) ∧
    (∀ (d : Int) (n : Nat), ∃ fuel,
      getWeekdaysAfterFuel fuel (d + 1) n = some (getWeekdaysAfter d n)) := by
  refine ⟨?_, ?_, ?_⟩
  · intro d dir
    apply getNearestWeekdayFuel_correct
    cases dir
    · exact fSteps_le_two d
    · exact bSteps_le_two d
  · intro d n
    exact ⟨3 * n + bSteps (d - 1), getWeekdaysBeforeFuel_correct (d - 1) n _ le_rfl⟩
  · intro d n
    exact ⟨3 * n + fSteps (d + 1), getWeekdaysAfterFuel_correct (d + 1) n _ le_rfl⟩

end MenuService
